import Mathlib

/-
  Verification of the multi-source exchange-rate collection and
  cache-coherent read-through pipeline.

  Shallow embedding of:
    - services/data-ingestor/app/services/data_collector.py
    - services/data-ingestor/app/services/data_processor.py
    - services/currency-service/app/services/currency_provider.py

  Rates are modelled as rationals (the source uses Decimal / DB decimals),
  timestamps as integers (epoch seconds), the Redis cache as an association
  list keyed by the Redis key string (last writer wins, lookup takes the
  most recent binding), and the exchange_rate_history table as a list of
  rows.  Exceptions in the source are modelled with Except / Option and
  explicit failure-injection predicates where a claim is about the
  exception path.
-/

set_option autoImplicit false

/-- Raw record produced by one source adapter
    (shared.models.RawExchangeRateData as used by the sources). -/
structure RawExchangeRateData where
  currency_code : String
  rate : ℚ
  source : String
  timestamp : ℤ
  deriving Repr, DecidableEq

/-- Canonical rate produced by cleaning (shared.models.ExchangeRate as used
    by the sources). -/
structure ExchangeRate where
  currency_code : String
  currency_name : String
  deal_base_rate : ℚ
  tts : ℚ
  ttb : ℚ
  source : String
  recorded_at : ℤ
  deriving Repr, DecidableEq

/-- Outcome of collecting from one source
    (shared.models.CollectionResult as used by the sources). -/
structure CollectionResult where
  source : String
  success : Bool
  error_message : Option String
  currency_count : ℕ
  collection_time : ℤ
  processing_time_ms : ℕ
  raw_data : List RawExchangeRateData
  deriving Repr, DecidableEq

/-- One row of the exchange_rate_history table. -/
structure HistoryRow where
  currency_code : String
  currency_name : String
  deal_base_rate : ℚ
  tts : Option ℚ
  ttb : Option ℚ
  source : String
  recorded_at : ℤ
  created_at : ℤ
  deriving Repr, DecidableEq

/-- One cached rate hash (the value stored by redis set_hash under the key
    rate:{currency_code}); ttl is the TTL in seconds passed to set_hash. -/
structure CacheEntry where
  currency_name : String
  deal_base_rate : ℚ
  tts : Option ℚ
  ttb : Option ℚ
  source : String
  last_updated_at : ℤ
  ttl : ℕ
  deriving Repr, DecidableEq, Inhabited

/-- The Redis cache: association list from Redis key to hash value.
    A write conses in front; lookup returns the most recent binding. -/
abbrev Cache := List (String × CacheEntry)

/-- Association-list lookup, first (= most recent) binding wins. -/
def alookup {α : Type} : List (String × α) → String → Option α
  | [], _ => none
  | (k, v) :: rest, k' => if k = k' then some v else alookup rest k'

/-- Redis key used by both the ingest pipeline and the reader:
    f"rate:{currency_code}". -/
def cache_key (c : String) : String := "rate:" ++ c

/-- Modelled from the spec: DataUtils.safe_decimal (shared/utils is not in
    the sources); normalizes a raw rate to a decimal with 4 fractional
    digits.  The rounding direction is irrelevant to every claim proved
    below. -/
def safe_decimal (x : ℚ) : ℚ := ((x * 10000 + 1 / 2 : ℚ).floor : ℚ) / 10000

/-- DataProcessor._get_currency_name: static currency-code to display-name
    table; unknown codes map to themselves. -/
def currency_names : List (String × String) :=
  [("USD", "미국 달러"), ("JPY", "일본 엔"), ("EUR", "유럽연합 유로"),
   ("GBP", "영국 파운드"), ("CNY", "중국 위안"), ("AUD", "호주 달러"),
   ("CAD", "캐나다 달러"), ("CHF", "스위스 프랑"), ("HKD", "홍콩 달러"),
   ("SGD", "싱가포르 달러")]

def get_currency_name (c : String) : String :=
  (alookup currency_names c).getD c

/-- Per-record transformation done by
    DataProcessor._clean_and_transform_data: base rate normalized to 4
    fractional digits, tts = base * 1.02, ttb = base * 0.98, display name
    attached, source and origin timestamp copied. -/
def to_exchange_rate (source : String) (raw : RawExchangeRateData) : ExchangeRate :=
  let base := safe_decimal raw.rate
  { currency_code := raw.currency_code
    currency_name := get_currency_name raw.currency_code
    deal_base_rate := base
    tts := base * (102 / 100)
    ttb := base * (98 / 100)
    source := source
    recorded_at := raw.timestamp }

/-- DataProcessor._clean_and_transform_data.  The per-item try/except never
    fires on numeric input (all operations are total here), so cleaning is
    the total map of the per-record transformation. -/
def clean_and_transform_data (raw : List RawExchangeRateData) (source : String) :
    List ExchangeRate :=
  raw.map (to_exchange_rate source)

/-- The duplicate-check predicate of DataProcessor._filter_duplicates: one
    history row within the last hour for the same currency and source whose
    stored rate differs from the candidate by strictly less than 0.01. -/
def is_dup_row (now : ℤ) (item : ExchangeRate) (r : HistoryRow) : Bool :=
  decide (r.currency_code = item.currency_code ∧ r.source = item.source ∧
    now - 3600 < r.recorded_at ∧ |r.deal_base_rate - item.deal_base_rate| < 1 / 100)

/-- DataProcessor._filter_duplicates (successful-lookup path): keep exactly
    the candidates for which the duplicate-check query counts zero rows. -/
def filter_duplicates (db : List HistoryRow) (now : ℤ) (xs : List ExchangeRate) :
    List ExchangeRate :=
  xs.filter (fun item => !(db.any (is_dup_row now item)))

/-- Row written by the INSERT in DataProcessor._save_to_database
    (tts/ttb follow the pythonic truthiness guard: 0 becomes NULL). -/
def to_history_row (now : ℤ) (item : ExchangeRate) : HistoryRow :=
  { currency_code := item.currency_code
    currency_name := item.currency_name
    deal_base_rate := item.deal_base_rate
    tts := if item.tts = 0 then none else some item.tts
    ttb := if item.ttb = 0 then none else some item.ttb
    source := item.source
    recorded_at := item.recorded_at
    created_at := now }

/-- DataProcessor.batch_size. -/
def batch_size : ℕ := 100

/-- Fuel-driven slicing helper for the fixed-size batching; the fuel is
    always at least the list length, so the middle fallback never fires. -/
def chunks_fuel {α : Type} : ℕ → List α → List (List α)
  | _, [] => []
  | 0, l => [l]
  | fuel + 1, x :: xs =>
      ((x :: xs).take batch_size) :: chunks_fuel fuel ((x :: xs).drop batch_size)

/-- Fixed-size batching used by _save_to_database
    (range(0, len(data), batch_size) slicing). -/
def chunks100 {α : Type} (l : List α) : List (List α) := chunks_fuel l.length l

/-- One iteration of the inner save loop: the insert of one record either
    succeeds (appends a row, increments the count) or raises, in which case
    the exception is caught and the record skipped. -/
def save_step (ok : ExchangeRate → Bool) (now : ℤ)
    (acc : ℕ × List HistoryRow) (item : ExchangeRate) : ℕ × List HistoryRow :=
  if ok item then (acc.1 + 1, acc.2 ++ [to_history_row now item]) else acc

/-- DataProcessor._save_to_database: iterate the batches of 100, inside each
    batch insert record by record, catching per-record failures; returns the
    count actually written together with the new table contents. -/
def save_to_database (ok : ExchangeRate → Bool) (now : ℤ)
    (recs : List ExchangeRate) (db : List HistoryRow) : ℕ × List HistoryRow :=
  (chunks100 recs).foldl (fun acc batch => batch.foldl (save_step ok now) acc) (0, db)

/-- Cache hash written per record by DataProcessor._update_cache; the TTL
    passed to set_hash there is 3600 seconds. -/
def ingest_entry (item : ExchangeRate) : CacheEntry :=
  { currency_name := item.currency_name
    deal_base_rate := item.deal_base_rate
    tts := if item.tts = 0 then none else some item.tts
    ttb := if item.ttb = 0 then none else some item.ttb
    source := item.source
    last_updated_at := item.recorded_at
    ttl := 3600 }

/-- DataProcessor._update_cache: upsert one cache entry per record under
    rate:{currency_code} with TTL 3600. -/
def update_cache : List ExchangeRate → Cache → Cache
  | [], cache => cache
  | item :: rest, cache =>
      update_cache rest ((cache_key item.currency_code, ingest_entry item) :: cache)

/-- DataProcessor._send_update_events: best-effort publish of one event per
    record; a failed publish is skipped.  The messaging sink is modelled as
    the list of successfully delivered records. -/
def send_update_events (publish_ok : ExchangeRate → Bool)
    (recs : List ExchangeRate) (events : List ExchangeRate) : List ExchangeRate :=
  events ++ recs.filter publish_ok

/-- Failure-injection environment for the processing pipeline: which
    individual inserts and publishes succeed, and whether the duplicate
    check is enabled (DataProcessor.duplicate_check_enabled, default true). -/
structure ProcEnv where
  write_ok : ExchangeRate → Bool
  publish_ok : ExchangeRate → Bool
  dup_check_enabled : Bool

/-- The mutable world the pipeline writes to: the historical store, the
    rate cache, and the messaging sink. -/
structure PipelineState where
  db : List HistoryRow
  cache : Cache
  events : List ExchangeRate
  deriving Repr, DecidableEq

/-- DataProcessor.process_exchange_rate_data: early return when the
    collection failed or carried no raw data; otherwise clean, optionally
    deduplicate, save, refresh the cache, and send events. -/
def process_exchange_rate_data (env : ProcEnv) (now : ℤ)
    (cr : CollectionResult) (st : PipelineState) : PipelineState :=
  if !cr.success || cr.raw_data.isEmpty then st
  else
    let processed := clean_and_transform_data cr.raw_data cr.source
    if processed.isEmpty then st
    else
      let processed :=
        if env.dup_check_enabled then filter_duplicates st.db now processed
        else processed
      let saved := save_to_database env.write_ok now processed st.db
      let cache' := update_cache processed st.cache
      let events' := send_update_events env.publish_ok processed st.events
      { db := saved.2, cache := cache', events := events' }

/-- Modelled from the spec: ValidationUtils.validate_currency_code
    (shared/utils is not in the sources); a currency code is accepted iff it
    is a member of the known-currency set of the Currency Reference Table,
    whose codes are those of the static display-name table. -/
def known_currencies : List String := currency_names.map Prod.fst

/-- The per-record acceptance predicate of
    DataCollector._validate_collected_data: known currency code, and a rate
    that is neither nonpositive nor above the 10000 sanity bound. -/
def valid_raw (item : RawExchangeRateData) : Bool :=
  decide (item.currency_code ∈ known_currencies) &&
    !(decide (item.rate ≤ 0) || decide (10000 < item.rate))

/-- DataCollector._validate_collected_data: the loop with per-record
    try/except and continue is the filter by the acceptance predicate. -/
def validate_collected_data (raw : List RawExchangeRateData) :
    List RawExchangeRateData :=
  raw.filter valid_raw

/-- One configured source adapter.  fetch is the result of the per-source
    collection call (_collect_from_bok and friends): either the parsed raw
    records or the raised exception message. -/
structure SourceConfig where
  source_id : String
  name : String
  active : Bool
  fetch : Except String (List RawExchangeRateData)

/-- DataCollector._collect_from_source: every raising operation of the body
    sits inside the try, so an adapter failure (timeout, exception,
    malformed payload) is caught and becomes a failed CollectionResult for
    that source; on success the validated records are attached. -/
def collect_from_source (now : ℤ) (src : SourceConfig) : CollectionResult :=
  match src.fetch with
  | Except.ok raw =>
      let validated := validate_collected_data raw
      { source := src.source_id, success := true, error_message := none,
        currency_count := validated.length, collection_time := now,
        processing_time_ms := 0, raw_data := validated }
  | Except.error msg =>
      { source := src.source_id, success := false, error_message := some msg,
        currency_count := 0, collection_time := now,
        processing_time_ms := 0, raw_data := [] }

/-- The originally-active adapters, in registry order. -/
def active_sources (sources : List SourceConfig) : List SourceConfig :=
  sources.filter (fun s => s.active)

/-- DataCollector.collect_all_data: collect from every active source in
    parallel and aggregate one outcome per active source. -/
def collect_all_data (now : ℤ) (sources : List SourceConfig) :
    List CollectionResult :=
  (active_sources sources).map (collect_from_source now)

/-- Failure-injection environment for the read path: which per-currency
    cache reads, DB reads, and cache writes raise. -/
structure ReaderEnv where
  cacheFails : String → Bool
  dbFails : String → Bool
  cacheSetFails : String → Bool

/-- The latest history row for a currency:
    ORDER BY recorded_at DESC LIMIT 1 of the rows for that currency. -/
def latest_row (c : String) : List HistoryRow → Option HistoryRow
  | [] => none
  | r :: rest =>
      match latest_row c rest with
      | none => if r.currency_code = c then some r else none
      | some b =>
          if r.currency_code = c ∧ b.recorded_at ≤ r.recorded_at then some r
          else some b

/-- CurrencyProvider._get_cached_rate: a raising cache lookup is caught and
    returns None, otherwise the hash stored under rate:{c} (which always
    carries deal_base_rate) is returned. -/
def get_cached_rate (env : ReaderEnv) (cache : Cache) (c : String) :
    Option CacheEntry :=
  if env.cacheFails c then none else alookup cache (cache_key c)

/-- CurrencyProvider._get_rate_from_db: a raising query propagates (as
    DatabaseError); otherwise the most recent history row for the currency,
    if any. -/
def get_rate_from_db (env : ReaderEnv) (db : List HistoryRow) (c : String) :
    Except Unit (Option HistoryRow) :=
  if env.dbFails c then Except.error () else Except.ok (latest_row c db)

/-- CurrencyProvider.cache_ttl: the TTL (seconds) the reader uses when it
    fills the cache after a DB fallback hit. -/
def cache_ttl : ℕ := 600

/-- Cache hash written by CurrencyProvider._cache_rate from a DB row, with
    TTL cache_ttl = 600. -/
def reader_entry (row : HistoryRow) : CacheEntry :=
  { currency_name := row.currency_name
    deal_base_rate := row.deal_base_rate
    tts := row.tts
    ttb := row.ttb
    source := row.source
    last_updated_at := row.recorded_at
    ttl := cache_ttl }

/-- CurrencyProvider._cache_rate: a raising cache write is caught and the
    cache left unchanged. -/
def cache_rate (env : ReaderEnv) (cache : Cache) (c : String)
    (row : HistoryRow) : Cache :=
  if env.cacheSetFails c then cache
  else (cache_key c, reader_entry row) :: cache

/-- Accumulator of the per-currency loop of
    CurrencyProvider.get_latest_rates: the rates collected so far, the
    cache-hit count, and the evolving cache. -/
structure LoopAcc where
  rates : List (String × ℚ)
  hits : ℕ
  cache : Cache

/-- One iteration of the per-currency loop: cache hit, else DB fallback
    with cache refill, a raising DB read caught by the per-currency except
    and the currency skipped, a currency with no data skipped. -/
def rates_step (env : ReaderEnv) (db : List HistoryRow) (acc : LoopAcc)
    (c : String) : LoopAcc :=
  match get_cached_rate env acc.cache c with
  | some e => ⟨acc.rates ++ [(c, e.deal_base_rate)], acc.hits + 1, acc.cache⟩
  | none =>
      match get_rate_from_db env db c with
      | Except.error _ => acc
      | Except.ok none => acc
      | Except.ok (some row) =>
          ⟨acc.rates ++ [(c, row.deal_base_rate)], acc.hits,
            cache_rate env acc.cache c row⟩

/-- The per-currency loop of CurrencyProvider.get_latest_rates. -/
def rates_loop (env : ReaderEnv) (db : List HistoryRow) :
    List String → LoopAcc → LoopAcc
  | [], acc => acc
  | c :: rest, acc => rates_loop env db rest (rates_step env db acc c)

/-- The snapshot returned by CurrencyProvider.get_latest_rates. -/
structure RatesSnapshot where
  base : String
  timestamp : ℤ
  rates : List (String × ℚ)
  source : String
  cache_hit : Bool
  cache_hit_ratio : ℚ
  deriving Repr, DecidableEq

/-- The default currency list substituted for an empty request. -/
def default_currency_codes : List String := ["USD", "JPY", "EUR", "GBP", "CNY"]

/-- CurrencyProvider.get_latest_rates: per-currency cache-first DB-fallback
    loop, then the snapshot (source tag redis_cache iff at least one cache
    hit) together with the cache as left by the refills. -/
def get_latest_rates (env : ReaderEnv) (now : ℤ) (codes0 : List String)
    (base : String) (cache : Cache) (db : List HistoryRow) :
    RatesSnapshot × Cache :=
  let codes := if codes0 = [] then default_currency_codes else codes0
  let out := rates_loop env db codes ⟨[], 0, cache⟩
  ({ base := base
     timestamp := now
     rates := out.rates
     source := if 0 < out.hits then "redis_cache" else "database"
     cache_hit := decide (0 < out.hits)
     cache_hit_ratio :=
       if codes = [] then 0 else (out.hits : ℚ) / (codes.length : ℚ) },
   out.cache)

/-- The value a single currency resolves to against a fixed cache and
    store: the cached rate on a hit, else the most recent DB rate, none on
    a DB error or when no data exists. -/
def resolve_rate (env : ReaderEnv) (db : List HistoryRow) (cache : Cache)
    (c : String) : Option ℚ :=
  match get_cached_rate env cache c with
  | some e => some e.deal_base_rate
  | none =>
      match get_rate_from_db env db c with
      | Except.ok (some row) => some row.deal_base_rate
      | _ => none

/-- Whether the loop iteration for a currency fills the cache: an initial
    miss, a DB read that neither fails nor comes back empty, and a cache
    write that does not fail. -/
def fills_cache (env : ReaderEnv) (db : List HistoryRow) (cache : Cache)
    (c : String) : Bool :=
  (get_cached_rate env cache c).isNone && !env.dbFails c &&
    (latest_row c db).isSome && !env.cacheSetFails c

/-- The entry such a fill writes. -/
def filled_entry (db : List HistoryRow) (c : String) : CacheEntry :=
  match latest_row c db with
  | some row => reader_entry row
  | none => default

/- ------------------------------------------------------------------ -/
/- Concrete instances used by witnesses and counterexamples            -/
/- ------------------------------------------------------------------ -/

/-- Pipeline environment with no injected failures. -/
def env_all_ok : ProcEnv := ⟨fun _ => true, fun _ => true, true⟩

/-- Reader environment with no injected failures. -/
def reader_env_ok : ReaderEnv := ⟨fun _ => false, fun _ => false, fun _ => false⟩

/-- Empty world. -/
def empty_state : PipelineState := ⟨[], [], []⟩

/-- A collection result that failed (adapter raised). -/
def demo_failed_cr : CollectionResult :=
  { source := "bok", success := false, error_message := some "timeout",
    currency_count := 0, collection_time := 0, processing_time_ms := 0,
    raw_data := [] }

/-- A raw USD observation. -/
def c7_raw : RawExchangeRateData := ⟨"USD", 1000, "bok", 0⟩

/-- A cleaned USD record. -/
def c6_item : ExchangeRate := to_exchange_rate "bok" ⟨"USD", 1350, "bok", 500⟩

/-- A stored USD row. -/
def usd_row : HistoryRow :=
  ⟨"USD", "미국 달러", 1350, none, none, "bok", 100, 100⟩

/-- A store containing only USD. -/
def usd_only_db : List HistoryRow := [usd_row]

/-- Records for the 100-record partial-failure scenario: the record with
    recorded_at = 50 (record number 50) fails to write. -/
def c8_rec (i : ℕ) : ExchangeRate :=
  { currency_code := "USD", currency_name := "미국 달러",
    deal_base_rate := 1350, tts := 1377, ttb := 1323, source := "bok",
    recorded_at := (i : ℤ) + 1 }

def c8_recs : List ExchangeRate := (List.range 100).map c8_rec

def c8_ok (r : ExchangeRate) : Bool := !(r.recorded_at == 50)

/-- The three active adapters of the isolation scenario: adapter a raises,
    adapters b and c succeed. -/
def c3_raw : RawExchangeRateData := ⟨"USD", 1300, "exchangerate_api", 50⟩

def c3_src_a : SourceConfig := ⟨"bok", "Bank of Korea", true, Except.error "timeout"⟩

def c3_src_b : SourceConfig :=
  ⟨"exchangerate_api", "ExchangeRate-API", true, Except.ok [c3_raw]⟩

def c3_src_c : SourceConfig := ⟨"fixer", "Fixer.io", true, Except.ok []⟩

def c3_sources : List SourceConfig := [c3_src_a, c3_src_b, c3_src_c]

/-- The end-to-end duplicate scenario: same source, same currency, one hour
    apart at most; rates 1350.25 then 1350.24 (claimed) and 1350.245
    (amended). -/
def c5_raw1 : RawExchangeRateData := ⟨"USD", 135025 / 100, "bok", 1000⟩

def c5_raw2 : RawExchangeRateData := ⟨"USD", 135024 / 100, "bok", 2000⟩

def c5_raw2b : RawExchangeRateData := ⟨"USD", 1350245 / 1000, "bok", 2000⟩

def c5_cr (raw : RawExchangeRateData) (t : ℤ) : CollectionResult :=
  { source := "bok", success := true, error_message := none,
    currency_count := 1, collection_time := t, processing_time_ms := 0,
    raw_data := [raw] }

def c5_st1 : PipelineState :=
  process_exchange_rate_data env_all_ok 1000 (c5_cr c5_raw1 1000) empty_state

def c5_st2 : PipelineState :=
  process_exchange_rate_data env_all_ok 2000 (c5_cr c5_raw2 2000) c5_st1

def c5_st2b : PipelineState :=
  process_exchange_rate_data env_all_ok 2000 (c5_cr c5_raw2b 2000) c5_st1

/- ------------------------------------------------------------------ -/
/- Helper lemmas                                                      -/
/- ------------------------------------------------------------------ -/

theorem alookup_cons {α : Type} (k k' : String) (v : α)
    (rest : List (String × α)) :
    alookup ((k, v) :: rest) k' = if k = k' then some v else alookup rest k' :=
  rfl

theorem cache_key_inj {c c' : String} (h : cache_key c = cache_key c') :
    c = c' := by
  have hd : (cache_key c).data = (cache_key c').data := by rw [h]
  simp only [cache_key, String.data_append] at hd
  exact String.ext (List.append_cancel_left hd)

theorem chunks_fuel_flatten {α : Type} :
    ∀ (fuel : ℕ) (l : List α), l.length ≤ fuel →
      (chunks_fuel fuel l).flatten = l := by
  intro fuel
  induction fuel with
  | zero =>
      intro l hl
      have : l = [] := List.length_eq_zero.mp (Nat.le_zero.mp hl)
      subst this
      rfl
  | succ n ih =>
      intro l hl
      match l with
      | [] => rfl
      | x :: xs =>
          simp only [chunks_fuel, List.flatten_cons]
          rw [ih ((x :: xs).drop batch_size)
            (by
              simp only [List.length_drop, List.length_cons, batch_size] at hl ⊢
              omega)]
          exact List.take_append_drop _ _

theorem chunks100_flatten {α : Type} (l : List α) : (chunks100 l).flatten = l :=
  chunks_fuel_flatten l.length l le_rfl

theorem foldl_over_chunks {α β : Type} (f : β → α → β) :
    ∀ (L : List (List α)) (b : β),
      L.foldl (fun acc batch => batch.foldl f acc) b = (L.flatten).foldl f b := by
  intro L
  induction L with
  | nil => intro b; rfl
  | cons batch rest ih =>
      intro b
      simp only [List.foldl_cons, List.flatten_cons, List.foldl_append]
      exact ih _

theorem save_to_database_eq_foldl (ok : ExchangeRate → Bool) (now : ℤ)
    (recs : List ExchangeRate) (db : List HistoryRow) :
    save_to_database ok now recs db = recs.foldl (save_step ok now) (0, db) := by
  unfold save_to_database
  rw [foldl_over_chunks, chunks100_flatten]

theorem foldl_save_step (ok : ExchangeRate → Bool) (now : ℤ) :
    ∀ (recs : List ExchangeRate) (acc : ℕ × List HistoryRow),
      recs.foldl (save_step ok now) acc
        = (acc.1 + (recs.filter ok).length,
           acc.2 ++ (recs.filter ok).map (to_history_row now)) := by
  intro recs
  induction recs with
  | nil => intro acc; simp
  | cons x xs ih =>
      intro acc
      by_cases h : ok x = true
      · rw [List.foldl_cons,
          show save_step ok now acc x
              = (acc.1 + 1, acc.2 ++ [to_history_row now x]) from by
            simp [save_step, h],
          ih, List.filter_cons_of_pos h]
        simp only [Prod.mk.injEq, List.length_cons, List.map_cons]
        constructor
        · omega
        · simp
      · rw [List.foldl_cons,
          show save_step ok now acc x = acc from by simp [save_step, h],
          ih, List.filter_cons_of_neg h]

theorem latest_row_eq_none (c : String) :
    ∀ (db : List HistoryRow), latest_row c db = none →
      ∀ r' ∈ db, r'.currency_code ≠ c := by
  intro db
  induction db with
  | nil => intro _ r' hr'; cases hr'
  | cons r rest ih =>
      intro h r' hr'
      rw [latest_row] at h
      cases h1 : latest_row c rest with
      | none =>
          rw [h1] at h
          dsimp only at h
          by_cases h2 : r.currency_code = c
          · rw [if_pos h2] at h; cases h
          · rcases List.mem_cons.mp hr' with hr' | hr'
            · subst hr'; exact h2
            · exact ih h1 r' hr'
      | some b =>
          rw [h1] at h
          dsimp only at h
          by_cases h2 : r.currency_code = c ∧ b.recorded_at ≤ r.recorded_at
          · rw [if_pos h2] at h; cases h
          · rw [if_neg h2] at h; cases h

theorem latest_row_spec (c : String) :
    ∀ (db : List HistoryRow) (row : HistoryRow), latest_row c db = some row →
      row ∈ db ∧ row.currency_code = c ∧
        ∀ r' ∈ db, r'.currency_code = c → r'.recorded_at ≤ row.recorded_at := by
  intro db
  induction db with
  | nil => intro row h; cases h
  | cons r rest ih =>
      intro row h
      rw [latest_row] at h
      cases h1 : latest_row c rest with
      | none =>
          rw [h1] at h
          dsimp only at h
          by_cases h2 : r.currency_code = c
          · rw [if_pos h2] at h
            cases h
            refine ⟨List.mem_cons_self _ _, h2, ?_⟩
            intro r' hr' hc'
            rcases List.mem_cons.mp hr' with hr' | hr'
            · subst hr'; exact le_refl _
            · exact absurd hc' (latest_row_eq_none c rest h1 r' hr')
          · rw [if_neg h2] at h; cases h
      | some b =>
          rw [h1] at h
          dsimp only at h
          rcases ih b h1 with ⟨hbmem, hbc, hbmax⟩
          by_cases h2 : r.currency_code = c ∧ b.recorded_at ≤ r.recorded_at
          · rw [if_pos h2] at h
            cases h
            refine ⟨List.mem_cons_self _ _, h2.1, ?_⟩
            intro r' hr' hc'
            rcases List.mem_cons.mp hr' with hr' | hr'
            · subst hr'; exact le_refl _
            · exact le_trans (hbmax r' hr' hc') h2.2
          · rw [if_neg h2] at h
            cases h
            refine ⟨List.mem_cons_of_mem _ hbmem, hbc, ?_⟩
            intro r' hr' hc'
            rcases List.mem_cons.mp hr' with hr' | hr'
            · subst hr'
              rcases not_and_or.mp h2 with h3 | h3
              · exact absurd hc' h3
              · exact le_of_not_le h3
            · exact hbmax r' hr' hc'

theorem update_cache_preserves_ttl :
    ∀ (recs : List ExchangeRate) (cache : Cache) (k : String),
      (∃ e, alookup cache k = some e ∧ e.ttl = 3600) →
      ∃ e, alookup (update_cache recs cache) k = some e ∧ e.ttl = 3600 := by
  intro recs
  induction recs with
  | nil => intro cache k h; exact h
  | cons item rest ih =>
      intro cache k h
      rw [update_cache]
      apply ih
      rw [alookup_cons]
      by_cases h2 : cache_key item.currency_code = k
      · rw [if_pos h2]; exact ⟨ingest_entry item, rfl, rfl⟩
      · rw [if_neg h2]; exact h

theorem update_cache_writes :
    ∀ (recs : List ExchangeRate) (cache : Cache) (item : ExchangeRate),
      item ∈ recs →
      ∃ e, alookup (update_cache recs cache) (cache_key item.currency_code)
            = some e ∧ e.ttl = 3600 := by
  intro recs
  induction recs with
  | nil => intro _ _ h; cases h
  | cons x rest ih =>
      intro cache item h
      rcases List.mem_cons.mp h with h | h
      · subst h
        rw [update_cache]
        apply update_cache_preserves_ttl
        rw [alookup_cons, if_pos rfl]
        exact ⟨ingest_entry item, rfl, rfl⟩
      · rw [update_cache]
        exact ih _ item h

/- ------------------------------------------------------------------ -/
/- Claim theorems                                                     -/
/- ------------------------------------------------------------------ -/

/-- C4: a candidate survives deduplication iff it was a candidate and the
    historical store holds no row with the same currency_code and source
    recorded within the last hour whose base rate differs from the
    candidate by strictly less than 0.01; so a candidate is dropped exactly
    when such a row exists, and a difference of at least 0.01 (or the
    absence of any such row) keeps it. -/
theorem filter_duplicates_iff (db : List HistoryRow) (now : ℤ)
    (xs : List ExchangeRate) (item : ExchangeRate) :
    item ∈ filter_duplicates db now xs ↔
      item ∈ xs ∧
        ¬ ∃ r ∈ db, r.currency_code = item.currency_code ∧
          r.source = item.source ∧ now - 3600 < r.recorded_at ∧
          |r.deal_base_rate - item.deal_base_rate| < 1 / 100 := by
  simp [filter_duplicates, List.mem_filter, is_dup_row, List.any_eq_true]

/-- C7: every record produced by cleaning carries tts = base rate x 1.02
    and ttb = base rate x 0.98, hence ttb < base rate < tts whenever the
    base rate is positive. -/
theorem clean_spread_invariant (raw : List RawExchangeRateData)
    (source : String) (er : ExchangeRate)
    (h : er ∈ clean_and_transform_data raw source) :
    er.tts = er.deal_base_rate * (102 / 100) ∧
    er.ttb = er.deal_base_rate * (98 / 100) ∧
    (0 < er.deal_base_rate →
      er.ttb < er.deal_base_rate ∧ er.deal_base_rate < er.tts) := by
  rcases List.mem_map.mp h with ⟨i, -, rfl⟩
  refine ⟨rfl, rfl, fun hpos => ?_⟩
  simp only [to_exchange_rate] at hpos ⊢
  constructor
  · linarith
  · linarith

/-- C7 witness: the invariant at a concrete cleaned record. -/
theorem clean_spread_invariant_witness :
    (to_exchange_rate "bok" c7_raw ∈ clean_and_transform_data [c7_raw] "bok") ∧
    ((to_exchange_rate "bok" c7_raw).tts
        = (to_exchange_rate "bok" c7_raw).deal_base_rate * (102 / 100) ∧
      (to_exchange_rate "bok" c7_raw).ttb
        = (to_exchange_rate "bok" c7_raw).deal_base_rate * (98 / 100) ∧
      (0 < (to_exchange_rate "bok" c7_raw).deal_base_rate →
        (to_exchange_rate "bok" c7_raw).ttb
            < (to_exchange_rate "bok" c7_raw).deal_base_rate ∧
          (to_exchange_rate "bok" c7_raw).deal_base_rate
            < (to_exchange_rate "bok" c7_raw).tts)) :=
  ⟨by simp [clean_and_transform_data],
   clean_spread_invariant [c7_raw] "bok" _ (by simp [clean_and_transform_data])⟩

/-- C9: validation followed by cleaning is total and drops exactly the
    records with a nonpositive rate, a rate above 10000, or an unknown
    currency code; the output consists of exactly the transforms of the
    passing records. -/
theorem validate_then_clean_total (raw : List RawExchangeRateData)
    (source : String) (er : ExchangeRate) :
    er ∈ clean_and_transform_data (validate_collected_data raw) source ↔
      ∃ i, i ∈ raw ∧
        (i.currency_code ∈ known_currencies ∧ 0 < i.rate ∧ i.rate ≤ 10000) ∧
        er = to_exchange_rate source i := by
  simp only [clean_and_transform_data, validate_collected_data, List.mem_map,
    List.mem_filter, valid_raw, Bool.and_eq_true, Bool.not_eq_eq_eq_not,
    Bool.not_true, Bool.or_eq_false_iff, decide_eq_true_eq,
    decide_eq_false_iff_not, not_le, not_lt]
  constructor
  · rintro ⟨i, ⟨hi, hmem, h0, h10⟩, rfl⟩
    exact ⟨i, hi, ⟨hmem, h0, h10⟩, rfl⟩
  · rintro ⟨i, hi, ⟨hmem, h0, h10⟩, rfl⟩
    exact ⟨i, ⟨hi, hmem, h0, h10⟩, rfl⟩

/-- C8: saveAll writes in batches of 100, skips exactly the records whose
    individual insert fails, never raises, and returns the number of
    records actually written (the number of successful inserts, at most the
    input length); the store receives exactly the successful records in
    order. -/
theorem save_all_spec (ok : ExchangeRate → Bool) (now : ℤ)
    (recs : List ExchangeRate) (db : List HistoryRow) :
    (save_to_database ok now recs db).1 = (recs.filter ok).length ∧
    (save_to_database ok now recs db).1 ≤ recs.length ∧
    (save_to_database ok now recs db).2
      = db ++ (recs.filter ok).map (to_history_row now) := by
  rw [save_to_database_eq_foldl, foldl_save_step]
  refine ⟨by simp, ?_, by simp⟩
  simpa using List.length_filter_le ok recs

/-- The concrete 100-record scenario: with the insert of record number 50
    failing, saveAll returns 99. -/
theorem save_partial_failure_example :
    (save_to_database c8_ok 0 c8_recs []).1 = 99 ∧ c8_recs.length = 100 := by
  rw [save_to_database_eq_foldl, foldl_save_step]
  exact ⟨by decide, by decide⟩

/-- C10: a collection outcome that failed or carries no raw data makes
    process_exchange_rate_data return without touching the store, the
    cache, or the messaging sink. -/
theorem process_skips_failed (env : ProcEnv) (now : ℤ)
    (cr : CollectionResult) (st : PipelineState)
    (h : cr.success = false ∨ cr.raw_data = []) :
    process_exchange_rate_data env now cr st = st := by
  unfold process_exchange_rate_data
  rcases h with h | h
  · rw [h]
    simp
  · rw [h]
    simp

/-- C10 witness: a failed outcome leaves the empty world unchanged. -/
theorem process_skips_failed_witness :
    (demo_failed_cr.success = false ∨ demo_failed_cr.raw_data = []) ∧
    process_exchange_rate_data env_all_ok 0 demo_failed_cr empty_state
      = empty_state :=
  ⟨Or.inl rfl,
   process_skips_failed env_all_ok 0 demo_failed_cr empty_state (Or.inl rfl)⟩

/-- C6 counterexample: the live-ingestion cache write stores TTL 3600
    seconds, not the claimed 600 seconds. -/
theorem update_cache_ttl_counterexample :
    Option.map CacheEntry.ttl
        (alookup (update_cache [c6_item] []) (cache_key "USD")) = some 3600 ∧
    (3600 : ℕ) ≠ 600 := by
  constructor
  · rfl
  · decide

/-- C6 amended: for every record processed by the live-ingestion pipeline
    the Cache Synchronizer upserts the per-currency cache entry with its
    TTL reset to 3600 seconds (1 hour); the 600-second TTL is the one the
    Rate Reader uses for its cache-fill-on-miss (CurrencyProvider.cache_ttl). -/
theorem update_cache_ttl (recs : List ExchangeRate) (cache : Cache)
    (item : ExchangeRate) (h : item ∈ recs) :
    (∃ e, alookup (update_cache recs cache) (cache_key item.currency_code)
        = some e ∧ e.ttl = 3600) ∧
    cache_ttl = 600 ∧ (∀ row : HistoryRow, (reader_entry row).ttl = 600) :=
  ⟨update_cache_writes recs cache item h, rfl, fun _ => rfl⟩

/-- C6 witness: the amended statement at a concrete record. -/
theorem update_cache_ttl_witness :
    c6_item ∈ [c6_item] ∧
    ((∃ e, alookup (update_cache [c6_item] []) (cache_key c6_item.currency_code)
        = some e ∧ e.ttl = 3600) ∧
      cache_ttl = 600 ∧ (∀ row : HistoryRow, (reader_entry row).ttl = 600)) :=
  ⟨List.mem_singleton.mpr rfl,
   update_cache_ttl [c6_item] [] c6_item (List.mem_singleton.mpr rfl)⟩

theorem rat_floor_eq_int_floor (q : ℚ) : q.floor = ⌊q⌋ := by
  rw [Rat.floor_def', Rat.floor_def]

theorem safe_decimal_intCast_div (n : ℤ) :
    safe_decimal ((n : ℚ) / 10000) = (n : ℚ) / 10000 := by
  rw [safe_decimal, rat_floor_eq_int_floor]
  rw [div_mul_cancel₀ _ (by norm_num : (10000 : ℚ) ≠ 0)]
  rw [add_comm, Int.floor_add_int]
  rw [show ⌊(1 / 2 : ℚ)⌋ = 0 from by
    rw [Int.floor_eq_zero_iff]
    constructor <;> norm_num]
  norm_num

theorem safe_decimal_c5raw1 :
    safe_decimal (135025 / 100 : ℚ) = 135025 / 100 := by
  rw [show (135025 / 100 : ℚ) = ((13502500 : ℤ) : ℚ) / 10000 from by norm_num,
    safe_decimal_intCast_div]

/-- The first collection run, evaluated. -/
theorem c5_st1_eq :
    c5_st1 = ⟨[to_history_row 1000 (to_exchange_rate "bok" c5_raw1)],
              [(cache_key "USD", ingest_entry (to_exchange_rate "bok" c5_raw1))],
              [to_exchange_rate "bok" c5_raw1]⟩ := by
  with_unfolding_all rfl

/-- The second collection run with the rate 1350.24, evaluated: the rates
    differ by exactly 0.01, so the candidate is kept and persisted. -/
theorem c5_st2_eq :
    c5_st2 = ⟨[to_history_row 1000 (to_exchange_rate "bok" c5_raw1),
               to_history_row 2000 (to_exchange_rate "bok" c5_raw2)],
              [(cache_key "USD", ingest_entry (to_exchange_rate "bok" c5_raw2)),
               (cache_key "USD", ingest_entry (to_exchange_rate "bok" c5_raw1))],
              [to_exchange_rate "bok" c5_raw1, to_exchange_rate "bok" c5_raw2]⟩ := by
  show process_exchange_rate_data _ _ _ c5_st1 = _
  rw [c5_st1_eq]
  with_unfolding_all rfl

/-- The second collection run with the rate 1350.245, evaluated: the rates
    differ by 0.005 < 0.01, so the candidate is suppressed and nothing is
    written. -/
theorem c5_st2b_eq :
    c5_st2b = ⟨[to_history_row 1000 (to_exchange_rate "bok" c5_raw1)],
               [(cache_key "USD", ingest_entry (to_exchange_rate "bok" c5_raw1))],
               [to_exchange_rate "bok" c5_raw1]⟩ := by
  show process_exchange_rate_data _ _ _ c5_st1 = _
  rw [c5_st1_eq]
  with_unfolding_all rfl

/-- C5 counterexample: with the claimed inputs 1350.25 and then 1350.24
    (same source, less than one hour apart) the two rates differ by exactly
    0.01, the dedup predicate (strictly less than 0.01) does not fire, and
    both observations are persisted: the store ends up with two USD rows,
    not exactly one. -/
theorem dedup_end_to_end_counterexample :
    (c5_st2.db.filter (fun r => r.currency_code == "USD")).length = 2 ∧
    (c5_st2.db.filter (fun r => r.currency_code == "USD")).length ≠ 1 := by
  rw [c5_st2_eq]
  constructor
  · decide
  · decide

/-- C5 amended: if adapters deliver, for the same source and less than one
    hour apart, a USD rate of 1350.25 and then a USD rate differing from it
    by strictly less than 0.01 (for example 1350.245), then after cleaning
    and deduplication exactly one USD CanonicalRate is persisted to the
    historical store and cached (the second observation is suppressed as a
    duplicate); with a difference of exactly 0.01, as in 1350.24, both are
    persisted. -/
theorem dedup_end_to_end_amended :
    (c5_st2b.db.filter (fun r => r.currency_code == "USD")).length = 1 ∧
    Option.map CacheEntry.deal_base_rate
        (alookup c5_st2b.cache (cache_key "USD")) = some (135025 / 100 : ℚ) := by
  rw [c5_st2b_eq]
  constructor
  · decide
  · show some (safe_decimal (135025 / 100 : ℚ)) = some (135025 / 100 : ℚ)
    rw [safe_decimal_c5raw1]

/-- C3: collectAll produces exactly one outcome per originally-active
    adapter, in registry order; the outcome at position i is computed from
    that adapter alone (so sibling adapters cannot affect it), carries that
    adapter's own source id, and is marked failed exactly when that
    adapter's fetch raised. -/
theorem collect_all_isolation (now : ℤ) (sources : List SourceConfig)
    (i : ℕ) (src : SourceConfig)
    (h : (active_sources sources)[i]? = some src) :
    (collect_all_data now sources).length = (active_sources sources).length ∧
    (collect_all_data now sources)[i]? = some (collect_from_source now src) ∧
    (collect_from_source now src).source = src.source_id ∧
    ((collect_from_source now src).success = true ↔
      ∃ raw, src.fetch = Except.ok raw) := by
  refine ⟨List.length_map _ _, ?_, ?_, ?_⟩
  · rw [collect_all_data, List.getElem?_map, h]
    rfl
  · cases hf : src.fetch <;> simp [collect_from_source, hf]
  · cases hf : src.fetch <;> simp [collect_from_source, hf]

/-- C3 witness: three active adapters, the first raising; three outcomes,
    exactly one failed, and the sibling records are exactly the validated
    records of the succeeding adapters. -/
theorem collect_all_isolation_witness :
    (active_sources c3_sources)[0]? = some c3_src_a ∧
    ((collect_all_data 0 c3_sources).length
        = (active_sources c3_sources).length ∧
      (collect_all_data 0 c3_sources)[0]? = some (collect_from_source 0 c3_src_a) ∧
      (collect_from_source 0 c3_src_a).source = c3_src_a.source_id ∧
      ((collect_from_source 0 c3_src_a).success = true ↔
        ∃ raw, c3_src_a.fetch = Except.ok raw)) ∧
    (collect_all_data 0 c3_sources).length = 3 ∧
    (collect_all_data 0 c3_sources).countP (fun r => !r.success) = 1 ∧
    (collect_all_data 0 c3_sources).map CollectionResult.raw_data
      = [[], [c3_raw], []] :=
  ⟨rfl, collect_all_isolation 0 c3_sources 0 c3_src_a rfl,
   by decide, by decide, by decide⟩

theorem rates_step_hit (env : ReaderEnv) (db : List HistoryRow) (acc : LoopAcc)
    (c : String) (e : CacheEntry) (h : get_cached_rate env acc.cache c = some e) :
    rates_step env db acc c
      = ⟨acc.rates ++ [(c, e.deal_base_rate)], acc.hits + 1, acc.cache⟩ := by
  rw [rates_step, h]

theorem rates_step_err (env : ReaderEnv) (db : List HistoryRow) (acc : LoopAcc)
    (c : String) (u : Unit) (h1 : get_cached_rate env acc.cache c = none)
    (h2 : get_rate_from_db env db c = Except.error u) :
    rates_step env db acc c = acc := by
  rw [rates_step, h1, h2]

theorem rates_step_nodata (env : ReaderEnv) (db : List HistoryRow) (acc : LoopAcc)
    (c : String) (h1 : get_cached_rate env acc.cache c = none)
    (h2 : get_rate_from_db env db c = Except.ok none) :
    rates_step env db acc c = acc := by
  rw [rates_step, h1, h2]

theorem rates_step_fill (env : ReaderEnv) (db : List HistoryRow) (acc : LoopAcc)
    (c : String) (row : HistoryRow) (h1 : get_cached_rate env acc.cache c = none)
    (h2 : get_rate_from_db env db c = Except.ok (some row)) :
    rates_step env db acc c
      = ⟨acc.rates ++ [(c, row.deal_base_rate)], acc.hits,
         cache_rate env acc.cache c row⟩ := by
  rw [rates_step, h1, h2]

theorem get_rate_from_db_error (env : ReaderEnv) (db : List HistoryRow)
    (c : String) (u : Unit) (h : get_rate_from_db env db c = Except.error u) :
    env.dbFails c = true := by
  rw [get_rate_from_db] at h
  by_cases hf : env.dbFails c = true
  · exact hf
  · rw [if_neg hf] at h; cases h

theorem get_rate_from_db_ok (env : ReaderEnv) (db : List HistoryRow)
    (c : String) (o : Option HistoryRow)
    (h : get_rate_from_db env db c = Except.ok o) :
    env.dbFails c = false ∧ latest_row c db = o := by
  rw [get_rate_from_db] at h
  by_cases hf : env.dbFails c = true
  · rw [if_pos hf] at h; cases h
  · rw [if_neg hf] at h
    injection h with h
    refine ⟨?_, h⟩
    revert hf; cases env.dbFails c <;> simp

theorem alookup_cache_rate (env : ReaderEnv) (cache : Cache) (c : String)
    (row : HistoryRow) (k : String) :
    alookup (cache_rate env cache c row) k
      = if env.cacheSetFails c = false ∧ k = cache_key c
        then some (reader_entry row) else alookup cache k := by
  rw [cache_rate]
  by_cases hs : env.cacheSetFails c = true
  · rw [if_pos hs, if_neg (by simp [hs])]
  · have hs' : env.cacheSetFails c = false := by
      revert hs; cases env.cacheSetFails c <;> simp
    rw [if_neg hs, alookup_cons]
    by_cases hk : cache_key c = k
    · rw [if_pos hk, if_pos ⟨hs', hk.symm⟩]
    · rw [if_neg hk, if_neg (fun hcon => hk hcon.2.symm)]

/-- Characterization of the per-currency loop of get_latest_rates against
    the initial cache: the collected rates are the per-currency resolutions
    (each independent of the others), the hit count is the number of
    initial cache hits, and the final cache holds exactly the
    cache-fill-on-miss entries on top of the initial one. -/
theorem rates_loop_spec (env : ReaderEnv) (db : List HistoryRow) :
    ∀ (codes : List String) (acc : LoopAcc) (cacheI : Cache),
      codes.Nodup →
      (∀ c ∈ codes, alookup acc.cache (cache_key c) = alookup cacheI (cache_key c)) →
      (rates_loop env db codes acc).rates
          = acc.rates ++ codes.filterMap
              (fun c => (resolve_rate env db cacheI c).map (fun q => (c, q))) ∧
      (rates_loop env db codes acc).hits
          = acc.hits + codes.countP (fun c => (get_cached_rate env cacheI c).isSome) ∧
      (∀ c ∈ codes,
          alookup (rates_loop env db codes acc).cache (cache_key c)
            = if fills_cache env db cacheI c = true then some (filled_entry db c)
              else alookup acc.cache (cache_key c)) ∧
      (∀ k : String, (∀ c ∈ codes, k ≠ cache_key c) →
          alookup (rates_loop env db codes acc).cache k = alookup acc.cache k) := by
  intro codes
  induction codes with
  | nil =>
      intro acc cacheI hnd hagree
      refine ⟨by simp [rates_loop], by simp [rates_loop], ?_, ?_⟩
      · intro c hc; cases hc
      · intro k _; rfl
  | cons c rest ih =>
      intro acc cacheI hnd hagree
      have hc0 : alookup acc.cache (cache_key c) = alookup cacheI (cache_key c) :=
        hagree c (List.mem_cons_self _ _)
      have hgc : get_cached_rate env acc.cache c = get_cached_rate env cacheI c := by
        rw [get_cached_rate, get_cached_rate, hc0]
      have hnd' : rest.Nodup := (List.nodup_cons.mp hnd).2
      have hcrest : c ∉ rest := (List.nodup_cons.mp hnd).1
      have hkne : ∀ c'' ∈ rest, cache_key c ≠ cache_key c'' := by
        intro c'' hc'' heq
        exact hcrest (by rw [cache_key_inj heq]; exact hc'')
      rw [rates_loop]
      cases hg : get_cached_rate env cacheI c with
      | some e =>
          rw [rates_step_hit env db acc c e (hgc.trans hg)]
          obtain ⟨ih1, ih2, ih3, ih4⟩ :=
            ih ⟨acc.rates ++ [(c, e.deal_base_rate)], acc.hits + 1, acc.cache⟩ cacheI
              hnd' (fun c' hc' => hagree c' (List.mem_cons_of_mem _ hc'))
          refine ⟨?_, ?_, ?_, ?_⟩
          · rw [ih1]
            have hres : resolve_rate env db cacheI c = some e.deal_base_rate := by
              rw [resolve_rate, hg]
            simp [List.filterMap_cons, hres]
          · rw [ih2, List.countP_cons]
            simp [hg]
            omega
          · intro c' hc'mem
            rcases List.mem_cons.mp hc'mem with rfl | hc'
            · have hfill : fills_cache env db cacheI c' = false := by
                simp [fills_cache, hg]
              rw [ih4 _ hkne]
              simp [hfill]
            · exact ih3 c' hc'
          · intro k hk
            exact ih4 k (fun c'' hc'' => hk c'' (List.mem_cons_of_mem _ hc''))
      | none =>
          cases hdb : get_rate_from_db env db c with
          | error u =>
              rw [rates_step_err env db acc c u (hgc.trans hg) hdb]
              have hdbf : env.dbFails c = true := get_rate_from_db_error env db c u hdb
              obtain ⟨ih1, ih2, ih3, ih4⟩ :=
                ih acc cacheI hnd' (fun c' hc' => hagree c' (List.mem_cons_of_mem _ hc'))
              refine ⟨?_, ?_, ?_, ?_⟩
              · rw [ih1]
                have hres : resolve_rate env db cacheI c = none := by
                  rw [resolve_rate, hg, hdb]
                simp [List.filterMap_cons, hres]
              · rw [ih2, List.countP_cons]
                simp [hg]
              · intro c' hc'mem
                rcases List.mem_cons.mp hc'mem with rfl | hc'
                · have hfill : fills_cache env db cacheI c' = false := by
                    simp [fills_cache, hdbf]
                  rw [ih4 _ hkne]
                  simp [hfill]
                · exact ih3 c' hc'
              · intro k hk
                exact ih4 k (fun c'' hc'' => hk c'' (List.mem_cons_of_mem _ hc''))
          | ok o =>
              obtain ⟨hdbf, hlat⟩ := get_rate_from_db_ok env db c o hdb
              cases o with
              | none =>
                  rw [rates_step_nodata env db acc c (hgc.trans hg) hdb]
                  obtain ⟨ih1, ih2, ih3, ih4⟩ :=
                    ih acc cacheI hnd'
                      (fun c' hc' => hagree c' (List.mem_cons_of_mem _ hc'))
                  refine ⟨?_, ?_, ?_, ?_⟩
                  · rw [ih1]
                    have hres : resolve_rate env db cacheI c = none := by
                      rw [resolve_rate, hg, hdb]
                    simp [List.filterMap_cons, hres]
                  · rw [ih2, List.countP_cons]
                    simp [hg]
                  · intro c' hc'mem
                    rcases List.mem_cons.mp hc'mem with rfl | hc'
                    · have hfill : fills_cache env db cacheI c' = false := by
                        simp [fills_cache, hlat]
                      rw [ih4 _ hkne]
                      simp [hfill]
                    · exact ih3 c' hc'
                  · intro k hk
                    exact ih4 k (fun c'' hc'' => hk c'' (List.mem_cons_of_mem _ hc''))
              | some row =>
                  rw [rates_step_fill env db acc c row (hgc.trans hg) hdb]
                  have huntouched : ∀ c' ∈ rest,
                      alookup (cache_rate env acc.cache c row) (cache_key c')
                        = alookup acc.cache (cache_key c') := by
                    intro c' hc'
                    have hne : ¬(env.cacheSetFails c = false ∧
                        cache_key c' = cache_key c) := by
                      rintro ⟨-, heq⟩
                      exact hcrest (by rw [← cache_key_inj heq]; exact hc')
                    rw [alookup_cache_rate, if_neg hne]
                  have hagree' : ∀ c' ∈ rest,
                      alookup (cache_rate env acc.cache c row) (cache_key c')
                        = alookup cacheI (cache_key c') := by
                    intro c' hc'
                    rw [huntouched c' hc']
                    exact hagree c' (List.mem_cons_of_mem _ hc')
                  obtain ⟨ih1, ih2, ih3, ih4⟩ :=
                    ih ⟨acc.rates ++ [(c, row.deal_base_rate)], acc.hits,
                        cache_rate env acc.cache c row⟩ cacheI hnd' hagree'
                  refine ⟨?_, ?_, ?_, ?_⟩
                  · rw [ih1]
                    have hres : resolve_rate env db cacheI c
                        = some row.deal_base_rate := by
                      rw [resolve_rate, hg, hdb]
                    simp [List.filterMap_cons, hres]
                  · rw [ih2, List.countP_cons]
                    simp [hg]
                  · intro c' hc'mem
                    rcases List.mem_cons.mp hc'mem with rfl | hc'
                    · rw [ih4 _ hkne]
                      dsimp only
                      by_cases hsf : env.cacheSetFails c' = true
                      · have hfill : fills_cache env db cacheI c' = false := by
                          simp [fills_cache, hsf]
                        rw [alookup_cache_rate, if_neg (by simp [hsf])]
                        simp [hfill]
                      · have hsf' : env.cacheSetFails c' = false := by
                          revert hsf; cases env.cacheSetFails c' <;> simp
                        have hfill : fills_cache env db cacheI c' = true := by
                          simp [fills_cache, hg, hdbf, hlat, hsf']
                        rw [alookup_cache_rate, if_pos ⟨hsf', rfl⟩, hfill, if_pos rfl]
                        rw [filled_entry, hlat]
                    · have h3 := ih3 c' hc'
                      dsimp only at h3
                      rw [huntouched c' hc'] at h3
                      exact h3
                  · intro k hk
                    rw [ih4 k (fun c'' hc'' => hk c'' (List.mem_cons_of_mem _ hc''))]
                    dsimp only
                    rw [alookup_cache_rate,
                      if_neg (fun hcon : env.cacheSetFails c = false ∧ k = cache_key c =>
                        hk c (List.mem_cons_self _ _) hcon.2)]

theorem get_latest_rates_eq (env : ReaderEnv) (now : ℤ) (codes : List String)
    (base : String) (cache : Cache) (db : List HistoryRow) (hne : codes ≠ []) :
    get_latest_rates env now codes base cache db
      = ({ base := base
           timestamp := now
           rates := (rates_loop env db codes ⟨[], 0, cache⟩).rates
           source := if 0 < (rates_loop env db codes ⟨[], 0, cache⟩).hits
                     then "redis_cache" else "database"
           cache_hit := decide (0 < (rates_loop env db codes ⟨[], 0, cache⟩).hits)
           cache_hit_ratio :=
             ((rates_loop env db codes ⟨[], 0, cache⟩).hits : ℚ)
               / (codes.length : ℚ) },
         (rates_loop env db codes ⟨[], 0, cache⟩).cache) := by
  simp [get_latest_rates, hne]

theorem alookup_filterMap_of_not_mem (f : String → Option ℚ) :
    ∀ (codes : List String) (c : String), c ∉ codes →
      alookup (codes.filterMap (fun c' => (f c').map (fun q => (c', q)))) c
        = none := by
  intro codes
  induction codes with
  | nil => intro c _; rfl
  | cons c0 rest ih =>
      intro c hc
      have hc0 : c ≠ c0 := fun h => hc (h ▸ List.mem_cons_self _ _)
      have hcr : c ∉ rest := fun h => hc (List.mem_cons_of_mem _ h)
      rw [List.filterMap_cons]
      cases hf : f c0 with
      | none => exact ih c hcr
      | some q =>
          simp only [Option.map_some']
          rw [alookup_cons, if_neg (fun h => hc0 h.symm)]
          exact ih c hcr

theorem alookup_filterMap_resolve (f : String → Option ℚ) :
    ∀ (codes : List String), codes.Nodup → ∀ c ∈ codes,
      alookup (codes.filterMap (fun c' => (f c').map (fun q => (c', q)))) c
        = f c := by
  intro codes
  induction codes with
  | nil => intro _ c hc; cases hc
  | cons c0 rest ih =>
      intro hnd c hc
      have hnd' : rest.Nodup := (List.nodup_cons.mp hnd).2
      have h0r : c0 ∉ rest := (List.nodup_cons.mp hnd).1
      rw [List.filterMap_cons]
      rcases List.mem_cons.mp hc with rfl | hcr
      · cases hf : f c with
        | none =>
            simp only [Option.map_none']
            rw [alookup_filterMap_of_not_mem f rest c h0r]
        | some q =>
            simp only [Option.map_some']
            rw [alookup_cons, if_pos rfl]
      · cases hf : f c0 with
        | none =>
            simp only [Option.map_none']
            exact ih hnd' c hcr
        | some q =>
            simp only [Option.map_some']
            rw [alookup_cons,
              if_neg (fun h => h0r (by rw [h]; exact hcr))]
            exact ih hnd' c hcr

/-- C1: the read path resolves each requested currency independently
    against the initial cache and store: the returned rates map is exactly
    the per-currency resolutions, so a cache error (treated as a miss), a
    DB error (caught by the per-currency handler), or the absence of any
    stored data for one currency at most omits that one currency, never
    fails the whole request and never disturbs the other currencies. -/
theorem get_latest_rates_isolation (env : ReaderEnv) (now : ℤ)
    (codes : List String) (base : String) (cache : Cache)
    (db : List HistoryRow) (hne : codes ≠ []) (hnd : codes.Nodup) :
    (get_latest_rates env now codes base cache db).1.rates
      = codes.filterMap
          (fun c => (resolve_rate env db cache c).map (fun q => (c, q))) := by
  rw [get_latest_rates_eq env now codes base cache db hne]
  exact ((rates_loop_spec env db codes ⟨[], 0, cache⟩ cache hnd
    (fun _ _ => rfl)).1).trans (by rw [List.nil_append])

set_option maxRecDepth 2000 in
/-- C1 witness: with a store holding only USD, requesting USD and JPY
    returns a map holding only USD; JPY is omitted, not an error. -/
theorem get_latest_rates_isolation_witness :
    (["USD", "JPY"] ≠ ([] : List String)) ∧ (["USD", "JPY"].Nodup) ∧
    ((get_latest_rates reader_env_ok 0 ["USD", "JPY"] "KRW" [] usd_only_db).1.rates
      = ["USD", "JPY"].filterMap
          (fun c => (resolve_rate reader_env_ok usd_only_db [] c).map
            (fun q => (c, q)))) ∧
    (get_latest_rates reader_env_ok 0 ["USD", "JPY"] "KRW" [] usd_only_db).1.rates
      = [("USD", (1350 : ℚ))] :=
  ⟨by simp, by simp,
   get_latest_rates_isolation reader_env_ok 0 ["USD", "JPY"] "KRW" [] usd_only_db
     (by simp) (by simp),
   by with_unfolding_all decide⟩

/-- C2: for a currency whose cache lookup misses while the store holds at
    least one row (and whose cache/DB accesses do not fail), the read path
    returns that currency's most recent stored rate (maximal recorded_at)
    and writes it back into the cache with the reader TTL; when every
    requested currency starts as a miss the first call reports
    source = database, and a subsequent call on the resulting cache returns
    the same value with source = redis_cache; in general the source tag is
    redis_cache iff at least one requested currency was a cache hit. -/
theorem get_latest_rates_read_through (env : ReaderEnv) (now now2 : ℤ)
    (codes : List String) (base : String) (cache : Cache)
    (db : List HistoryRow) (c : String) (row : HistoryRow)
    (hnd : codes.Nodup) (hc : c ∈ codes)
    (hok : ∀ c' ∈ codes, env.cacheFails c' = false ∧ env.dbFails c' = false ∧
      env.cacheSetFails c' = false)
    (hmiss : ∀ c' ∈ codes, alookup cache (cache_key c') = none)
    (hrow : latest_row c db = some row) :
    alookup (get_latest_rates env now codes base cache db).1.rates c
        = some row.deal_base_rate ∧
    (row ∈ db ∧ row.currency_code = c ∧
      ∀ r' ∈ db, r'.currency_code = c → r'.recorded_at ≤ row.recorded_at) ∧
    (get_latest_rates env now codes base cache db).1.source = "database" ∧
    alookup (get_latest_rates env now codes base cache db).2 (cache_key c)
        = some (reader_entry row) ∧
    (reader_entry row).ttl = cache_ttl ∧
    alookup (get_latest_rates env now2 codes base
        (get_latest_rates env now codes base cache db).2 db).1.rates c
        = some row.deal_base_rate ∧
    (get_latest_rates env now2 codes base
        (get_latest_rates env now codes base cache db).2 db).1.source
        = "redis_cache" ∧
    (∀ (env' : ReaderEnv) (now' : ℤ) (codes' : List String) (base' : String)
        (cache' : Cache) (db' : List HistoryRow),
      codes' ≠ [] → codes'.Nodup →
      ((get_latest_rates env' now' codes' base' cache' db').1.source
          = "redis_cache"
        ↔ ∃ c' ∈ codes', (get_cached_rate env' cache' c').isSome = true)) := by
  have hne : codes ≠ [] := List.ne_nil_of_mem hc
  obtain ⟨hcf, hdbq, hsfq⟩ := hok c hc
  have hgcnone : ∀ c' ∈ codes, get_cached_rate env cache c' = none := by
    intro c' hc'
    simp [get_cached_rate, (hok c' hc').1, hmiss c' hc']
  obtain ⟨L1, L2, L3, L4⟩ :=
    rates_loop_spec env db codes ⟨[], 0, cache⟩ cache hnd (fun _ _ => rfl)
  have hdbok : get_rate_from_db env db c = Except.ok (some row) := by
    rw [get_rate_from_db]
    simp [hdbq, hrow]
  have hres : resolve_rate env db cache c = some row.deal_base_rate := by
    rw [resolve_rate, hgcnone c hc, hdbok]
  have hfillc : fills_cache env db cache c = true := by
    simp [fills_cache, hgcnone c hc, hdbq, hrow, hsfq]
  have hcount0 : codes.countP
      (fun c' => (get_cached_rate env cache c').isSome) = 0 :=
    List.countP_eq_zero.mpr (fun c' hc' => by simp [hgcnone c' hc'])
  have hlook2 : alookup (rates_loop env db codes ⟨[], 0, cache⟩).cache
      (cache_key c) = some (reader_entry row) := by
    rw [L3 c hc, if_pos hfillc, filled_entry, hrow]
  have hgc2 : get_cached_rate env
      (rates_loop env db codes ⟨[], 0, cache⟩).cache c
      = some (reader_entry row) := by
    simp [get_cached_rate, hcf, hlook2]
  obtain ⟨M1, M2, M3, M4⟩ :=
    rates_loop_spec env db codes
      ⟨[], 0, (rates_loop env db codes ⟨[], 0, cache⟩).cache⟩
      (rates_loop env db codes ⟨[], 0, cache⟩).cache hnd (fun _ _ => rfl)
  rw [get_latest_rates_eq env now codes base cache db hne]
  dsimp only
  rw [get_latest_rates_eq env now2 codes base
    (rates_loop env db codes ⟨[], 0, cache⟩).cache db hne]
  dsimp only
  refine ⟨?_, latest_row_spec c db row hrow, ?_, ?_, rfl, ?_, ?_, ?_⟩
  · rw [L1, List.nil_append,
      alookup_filterMap_resolve (fun c' => resolve_rate env db cache c')
        codes hnd c hc, hres]
  · rw [L2, hcount0]
    simp
  · exact hlook2
  · rw [M1, List.nil_append,
      alookup_filterMap_resolve
        (fun c' => resolve_rate env db
          (rates_loop env db codes ⟨[], 0, cache⟩).cache c') codes hnd c hc]
    rw [resolve_rate, hgc2]
    rfl
  · rw [M2]
    rw [if_pos ?_]
    have : (0 : ℕ) < codes.countP (fun c' => (get_cached_rate env
        (rates_loop env db codes ⟨[], 0, cache⟩).cache c').isSome) :=
      List.countP_pos.mpr ⟨c, hc, by simp [hgc2]⟩
    omega
  · intro env' now' codes' base' cache' db' hne' hnd'
    rw [get_latest_rates_eq env' now' codes' base' cache' db' hne']
    dsimp only
    obtain ⟨-, N2, -, -⟩ :=
      rates_loop_spec env' db' codes' ⟨[], 0, cache'⟩ cache' hnd'
        (fun _ _ => rfl)
    rw [N2, Nat.zero_add]
    by_cases hp : 0 < codes'.countP
        (fun c' => (get_cached_rate env' cache' c').isSome)
    · rw [if_pos hp]
      exact iff_of_true rfl (List.countP_pos.mp hp)
    · rw [if_neg hp]
      refine iff_of_false (by decide) ?_
      rintro ⟨c', hc', hsome⟩
      exact hp (List.countP_pos.mpr ⟨c', hc', hsome⟩)

/-- C2 witness: empty cache, store holding one USD row; the first call
    serves the stored rate from the database and the second call within the
    TTL serves it from the cache. -/
theorem get_latest_rates_read_through_witness :
    latest_row "USD" usd_only_db = some usd_row ∧
    alookup (get_latest_rates reader_env_ok 0 ["USD"] "KRW" []
        usd_only_db).1.rates "USD" = some usd_row.deal_base_rate ∧
    (get_latest_rates reader_env_ok 0 ["USD"] "KRW" []
        usd_only_db).1.source = "database" ∧
    alookup (get_latest_rates reader_env_ok 0 ["USD"] "KRW" []
        usd_only_db).2 (cache_key "USD") = some (reader_entry usd_row) ∧
    alookup (get_latest_rates reader_env_ok 50 ["USD"] "KRW"
        (get_latest_rates reader_env_ok 0 ["USD"] "KRW" [] usd_only_db).2
        usd_only_db).1.rates "USD" = some usd_row.deal_base_rate ∧
    (get_latest_rates reader_env_ok 50 ["USD"] "KRW"
        (get_latest_rates reader_env_ok 0 ["USD"] "KRW" [] usd_only_db).2
        usd_only_db).1.source = "redis_cache" := by
  have h := get_latest_rates_read_through reader_env_ok 0 50 ["USD"] "KRW" []
    usd_only_db "USD" usd_row (by simp) (by simp)
    (fun c' _ => ⟨rfl, rfl, rfl⟩) (fun c' _ => rfl) rfl
  exact ⟨rfl, h.1, h.2.2.1, h.2.2.2.1, h.2.2.2.2.2.1, h.2.2.2.2.2.2.1⟩
